import Mathlib

/-!
Verification of the ICU source-text serializer
(`deps/icu-small/source/tools/toolutil/writesrc.cpp`).

The definitions below are a shallow embedding of the serializer: each
C function is translated to a Lean function producing the text written
to the sink together with the diagnostic messages written to the error
channel.  Machine integers are modelled as `Nat`/`Int`; the 64-bit
signed read is an explicit two's-complement reinterpretation.
-/

namespace WriteSrc

/-- Decimal/lowercase-hexadecimal digit character, as produced by
`printf` conversions `%d` and `%x`. -/
def digitChar (n : Nat) : Char :=
  if n < 10 then Char.ofNat (48 + n) else Char.ofNat (87 + n)

/-- Most-significant-first digit list of `n` in base `b` (`b ≥ 2`). -/
def natDigits (b n : Nat) : List Char :=
  if b ≤ 1 then []
  else if n < b then [digitChar n]
  else natDigits b (n / b) ++ [digitChar (n % b)]
  termination_by n
  decreasing_by
    exact Nat.div_lt_self (by omega) (by omega)

/-- Decimal rendering of a natural number (`printf %u` / `%ld` on a
non-negative value). -/
def natDec (n : Nat) : String := String.mk (natDigits 10 n)

/-- Lowercase hexadecimal rendering of a natural number
(`printf %lx`, no `0x` included). -/
def natHex (n : Nat) : String := String.mk (natDigits 16 n)

/-- Decimal rendering of an integer (`printf PRId64`). -/
def intDec (z : Int) : String :=
  if z < 0 then String.mk (Char.ofNat 45 :: natDigits 10 z.natAbs) else natDec z.natAbs

/-- `writesrc.cpp:211` — one element of a numeric array:
`fprintf(f, value<=9 ? "%" PRId64 : "0x%" PRIx64, value)`. -/
def renderValue (value : Int) : String :=
  if value ≤ 9 then intDec value else "0x" ++ natHex value.toNat

/-- Reading one stored element of the given width as the C code's
`int64_t value`: widths 8/16/32 read unsigned values, width 64 reads a
signed `int64_t` (two's complement). -/
def readVal (width : Nat) (v : Nat) : Int :=
  if width = 64 ∧ 2 ^ 63 ≤ v then (v : Int) - 2 ^ 64 else (v : Int)

/-- The element loop of `usrc_writeArray` (`writesrc.cpp:184-212`).
State: `i` is the element index, `col` the column counter; an element
at `i > 0` is preceded by a comma, or by comma+newline+indent once
`col` reaches 16, which resets the column counter. -/
def arrGo (width : Nat) (indent : String) : List Nat → Nat → Nat → String
  | [], _, _ => ""
  | v :: rest, i, col =>
    (if i > 0 then (if col < 16 then "," else ",\n" ++ indent) else "")
      ++ renderValue (readVal width v)
      ++ arrGo width indent rest (i + 1) (if i > 0 ∧ ¬ col < 16 then 1 else col + 1)

/-- The element-list portion of `usrc_writeArray`'s output (everything
between the prefix and the postfix). -/
def writeArrayBody (width : Nat) (vals : List Nat) (indent : String) : String :=
  arrGo width indent vals 0 0

/-- The diagnostic message of `writesrc.cpp:178`. -/
def widthErr (width : Nat) : String :=
  "usrc_writeArray(width=" ++ natDec width ++ ") unrecognized width\n"

/-- `usrc_writeArray` (`writesrc.cpp:147-216`).  Result: the text
written to the sink, paired with the diagnostic messages written to
`stderr`.  The width is validated before anything is written, so an
unrecognized width writes nothing at all, not even the prefix.  The
prefix is a `printf` template receiving the element count. -/
def usrc_writeArray (pfx : Option (Nat → String)) (vals : List Nat) (width : Nat)
    (indent : String) (sfx : Option String) : String × List String :=
  if width = 8 ∨ width = 16 ∨ width = 32 ∨ width = 64 then
    ((match pfx with | some g => g vals.length | none => "")
       ++ writeArrayBody width vals indent
       ++ (match sfx with | some s => s | none => ""), [])
  else ("", [widthErr width])

/-- Number of occurrences of the character `c` in the string `s`. -/
def countChar (c : Char) (s : String) : Nat := s.data.count c

/-- Concatenation of a list of strings. -/
def joinStrs : List String → String
  | [] => ""
  | s :: rest => s ++ joinStrs rest

/-- `UPRV_TARGET_SYNTAX_CCODE` of `writesrc.h` (the header is outside
`src/`; the enum is modelled as `Nat`, only distinctness of the two
values matters). -/
def UPRV_TARGET_SYNTAX_CCODE : Nat := 0

/-- `UPRV_TARGET_SYNTAX_TOML` of `writesrc.h`. -/
def UPRV_TARGET_SYNTAX_TOML : Nat := 1

/-- `UCPTRIE_VALUE_BITS_16` of `ucptrie.h` (header outside `src/`;
modelled as `Nat`, only distinctness of the three tags matters). -/
def UCPTRIE_VALUE_BITS_16 : Nat := 0

/-- `UCPTRIE_VALUE_BITS_32` of `ucptrie.h`. -/
def UCPTRIE_VALUE_BITS_32 : Nat := 1

/-- `UCPTRIE_VALUE_BITS_8` of `ucptrie.h`. -/
def UCPTRIE_VALUE_BITS_8 : Nat := 2

/-- The generalized code-point trie as read by the serializer: the
index array, the data array, and the scalar header fields. -/
structure UCPTrie where
  index : List Nat
  dataArr : List Nat
  indexLength : Nat
  dataLength : Nat
  highStart : Nat
  shifted12HighStart : Nat
  type : Nat
  valueWidth : Nat
  index3NullOffset : Nat
  dataNullOffset : Nat
  nullValue : Nat

/-- The width derivation of `usrc_writeUCPTrieArrays`
(`writesrc.cpp:290-293`): an unrecognized value-width tag degrades to
width 0. -/
def ucptrieDataWidth (t : UCPTrie) : Nat :=
  if t.valueWidth = UCPTRIE_VALUE_BITS_16 then 16
  else if t.valueWidth = UCPTRIE_VALUE_BITS_32 then 32
  else if t.valueWidth = UCPTRIE_VALUE_BITS_8 then 8
  else 0

/-- `usrc_writeUCPTrieArrays` (`writesrc.cpp:282-295`): writes the
16-bit index array, then the data array at the derived width; the
indent is two spaces under the TOML syntax. -/
def usrc_writeUCPTrieArrays (ipfx dpfx : Option (Nat → String)) (t : UCPTrie)
    (sfx : Option String) (syn : Nat) : String × List String :=
  let indent := if syn = UPRV_TARGET_SYNTAX_TOML then "  " else ""
  let a := usrc_writeArray ipfx t.index 16 indent sfx
  let b := usrc_writeArray dpfx t.dataArr (ucptrieDataWidth t) indent sfx
  (a.1 ++ b.1, a.2 ++ b.2)

/-- A `printf` pattern token: literal text, a decimal conversion, or a
hexadecimal conversion. -/
inductive FTok where
  | lit (s : String)
  | dec
  | hex

/-- `printf` over a pattern and an argument list: literals are copied,
each conversion consumes one argument. -/
def formatRun : List FTok → List Nat → String
  | [], _ => ""
  | FTok.lit s :: rest, args => s ++ formatRun rest args
  | FTok.dec :: rest, [] => formatRun rest []
  | FTok.dec :: rest, a :: args => natDec a ++ formatRun rest args
  | FTok.hex :: rest, [] => formatRun rest []
  | FTok.hex :: rest, a :: args => natHex a ++ formatRun rest args

/-- The sequence of argument values consumed by the conversions of a
pattern, in emission order. -/
def consumedArgs : List FTok → List Nat → List Nat
  | [], _ => []
  | FTok.lit _ :: rest, args => consumedArgs rest args
  | FTok.dec :: rest, [] => consumedArgs rest []
  | FTok.dec :: rest, a :: args => a :: consumedArgs rest args
  | FTok.hex :: rest, [] => consumedArgs rest []
  | FTok.hex :: rest, a :: args => a :: consumedArgs rest args

/-- The C-code struct pattern of `usrc_writeUCPTrieStruct`
(`writesrc.cpp:316-322`), tokenized; `0, 0` for
reserved32/reserved16 is literal text. -/
def ccodeStructPattern : List FTok :=
  [FTok.lit "    ", FTok.dec, FTok.lit ", ", FTok.dec,
   FTok.lit ",\n    0x", FTok.hex, FTok.lit ", 0x", FTok.hex,
   FTok.lit ",\n    ", FTok.dec, FTok.lit ", ", FTok.dec,
   FTok.lit ",\n    0, 0,\n    0x", FTok.hex, FTok.lit ", 0x", FTok.hex,
   FTok.lit ",\n    0x", FTok.hex, FTok.lit ",\n"]

/-- The TOML struct pattern of `usrc_writeUCPTrieStruct`
(`writesrc.cpp:323-333`), tokenized. -/
def tomlStructPattern : List FTok :=
  [FTok.lit "indexLength = ", FTok.dec,
   FTok.lit "\ndataLength = ", FTok.dec,
   FTok.lit "\nhighStart = 0x", FTok.hex,
   FTok.lit "\nshifted12HighStart = 0x", FTok.hex,
   FTok.lit "\ntype = ", FTok.dec,
   FTok.lit "\nvalueWidth = ", FTok.dec,
   FTok.lit "\nindex3NullOffset = 0x", FTok.hex,
   FTok.lit "\ndataNullOffset = 0x", FTok.hex,
   FTok.lit "\nnullValue = 0x", FTok.hex,
   FTok.lit "\n"]

/-- The argument tuple of the single `fprintf` of
`usrc_writeUCPTrieStruct` (`writesrc.cpp:334-341`), shared by both
syntax branches. -/
def ucptrieStructArgs (t : UCPTrie) : List Nat :=
  [t.indexLength, t.dataLength, t.highStart, t.shifted12HighStart,
   t.type, t.valueWidth, t.index3NullOffset, t.dataNullOffset, t.nullValue]

/-- `usrc_writeUCPTrieStruct` (`writesrc.cpp:297-345`): optional
prefix, array-reference lines only under the C-code syntax, then the
scalar-field block, then the optional postfix. -/
def usrc_writeUCPTrieStruct (pfx : Option String) (t : UCPTrie)
    (indexName dataName : String) (sfx : Option String) (syn : Nat) : String :=
  (match pfx with | some s => s | none => "")
  ++ (if syn = UPRV_TARGET_SYNTAX_CCODE then
        "    " ++ indexName ++ ",\n    \x7b " ++ dataName ++ " \x7d,\n"
      else "")
  ++ formatRun (if syn = UPRV_TARGET_SYNTAX_CCODE then ccodeStructPattern
                else tomlStructPattern) (ucptrieStructArgs t)
  ++ (match sfx with | some s => s | none => "")

/-- The first `switch` of `usrc_writeUCPTrie` (`writesrc.cpp:355-368`):
the array prefixes/postfix for the chosen syntax; the `default` arm is
`UPRV_UNREACHABLE_EXIT`, modelled as `none`. -/
def ucptrieArrayPhase (name : String) (t : UCPTrie) (syn : Nat) :
    Option ((Nat → String) × (Nat → String) × String) :=
  if syn = UPRV_TARGET_SYNTAX_CCODE then
    some (fun len => "static const uint16_t " ++ name ++ "_trieIndex[" ++ natDec len ++ "]=\x7b\n",
          fun len => "static const uint" ++ natDec (ucptrieDataWidth t) ++ "_t " ++ name
            ++ "_trieData[" ++ natDec len ++ "]=\x7b\n",
          "\n\x7d;\n\n")
  else if syn = UPRV_TARGET_SYNTAX_TOML then
    some (fun _ => "index = [\n  ",
          fun _ => "data_" ++ natDec (ucptrieDataWidth t) ++ " = [\n  ",
          "\n]\n")
  else none

/-- The second `switch` of `usrc_writeUCPTrie` (`writesrc.cpp:371-386`):
the struct prefix/names/postfix; the `default` arm is
`UPRV_UNREACHABLE_EXIT`, modelled as `none`. -/
def ucptrieStructPhase (name : String) (syn : Nat) :
    Option (String × String × String × String) :=
  if syn = UPRV_TARGET_SYNTAX_CCODE then
    some ("static const UCPTrie " ++ name ++ "_trie=\x7b\n",
          name ++ "_trieIndex", name ++ "_trieData", "\x7d;\n\n")
  else if syn = UPRV_TARGET_SYNTAX_TOML then
    some ("", "", "", "")
  else none

/-- `usrc_writeUCPTrie` (`writesrc.cpp:347-388`): `none` models the
abort path (`UPRV_UNREACHABLE_EXIT`) taken on an unsupported syntax
value, in which case nothing is emitted at all. -/
def usrc_writeUCPTrie (name : String) (t : UCPTrie) (syn : Nat) :
    Option (String × List String) :=
  match ucptrieArrayPhase name t syn with
  | none => none
  | some (l1, l2, l3) =>
    match ucptrieStructPhase name syn with
    | none => none
    | some (p, n2, n3, p4) =>
      let a := usrc_writeUCPTrieArrays (some l1) (some l2) t (some l3) syn
      some (a.1 ++ usrc_writeUCPTrieStruct (some p) t n2 n3 (some p4) syn, a.2)

/-- `U16_IS_LEAD` (`utf16.h`): high-surrogate code unit. -/
def isLead (u : Nat) : Bool := decide (0xD800 ≤ u ∧ u < 0xDC00)

/-- `U16_IS_TRAIL` (`utf16.h`): low-surrogate code unit. -/
def isTrail (u : Nat) : Bool := decide (0xDC00 ≤ u ∧ u < 0xE000)

/-- `U16_GET_SUPPLEMENTARY` (`utf16.h`). -/
def supplementary (lead trail : Nat) : Nat :=
  0x10000 + (lead - 0xD800) * 0x400 + (trail - 0xDC00)

/-- Standard UTF-16 decoding as performed by the `U16_NEXT` loop of
`usrc_writeStringAsASCII`: a lead surrogate followed by a trail
surrogate combines into a supplementary code point, anything else
passes through. -/
def decodeUTF16 : List Nat → List Nat
  | [] => []
  | [u] => [u]
  | u :: t :: rest =>
    if isLead u then
      if isTrail t then supplementary u t :: decodeUTF16 rest
      else u :: decodeUTF16 (t :: rest)
    else u :: decodeUTF16 (t :: rest)

/-- Modelled from the spec: the caller-supplied unprintable classifier
(`ICU_Utility::isUnprintable`, outside `src/`) — a code point is
printable exactly when it is ASCII in `[0x20, 0x7E]`; control
characters and non-ASCII are unprintable. -/
def isUnprintableModel (cp : Nat) : Bool :=
  if 0x20 ≤ cp ∧ cp ≤ 0x7E then false else true

/-- An uppercase hexadecimal digit. -/
def hexDigitU (n : Nat) : Char :=
  if n < 10 then Char.ofNat (48 + n) else Char.ofNat (55 + n)

/-- Exactly `w` uppercase hexadecimal digits of `n`,
most significant first. -/
def hexPad : Nat → Nat → List Char
  | 0, _ => []
  | w + 1, n => hexPad w (n / 16) ++ [hexDigitU (n % 16)]

/-- Modelled from the spec: the delegate escaping routine
(`ICU_Utility::escapeUnprintable`, outside `src/`) — an ASCII escape
sequence `\uXXXX` for BMP code points and `\UXXXXXXXX` for
supplementary ones, inserted verbatim. -/
def escapeUnprintableModel (cp : Nat) : String :=
  if 0x10000 ≤ cp then String.mk (Char.ofNat 92 :: 'U' :: hexPad 8 cp)
  else String.mk (Char.ofNat 92 :: 'u' :: hexPad 4 cp)

/-- The per-code-point rendering of `usrc_writeStringAsASCII`
(`writesrc.cpp:498-513`): a double quote becomes backslash-quote, an
unprintable code point is escaped via the delegate, anything else is
emitted as one plain ASCII character. -/
def renderCp (cp : Nat) : String :=
  if cp = 34 then String.mk [Char.ofNat 92, Char.ofNat 34]
  else if isUnprintableModel cp then escapeUnprintableModel cp
  else String.singleton (Char.ofNat cp)

/-- The `U16_NEXT` emission loop of `usrc_writeStringAsASCII`. -/
def strGo : List Nat → String
  | [] => ""
  | [u] => renderCp u
  | u :: t :: rest =>
    if isLead u then
      if isTrail t then renderCp (supplementary u t) ++ strGo rest
      else renderCp u ++ strGo (t :: rest)
    else renderCp u ++ strGo (t :: rest)

/-- `usrc_writeStringAsASCII` (`writesrc.cpp:490-515`): a double-quoted
literal around the escaped body. -/
def usrc_writeStringAsASCII (units : List Nat) : String :=
  String.mk [Char.ofNat 34] ++ strGo units ++ String.mk [Char.ofNat 34]

/-- One item yielded by `UnicodeSetIterator::nextRange`: either a plain
code-point range or a multi-code-point string member (as UTF-16 code
units). -/
inductive SetItem where
  | range (a b : Nat)
  | str (units : List Nat)

/-- One ordered write of `usrc_writeUnicodeSet` to the sink. -/
inductive USetChunk where
  | header
  | rangesOpen
  | transition
  | rangeEntry (a b : Nat)
  | strEntry (s : String)
  | close

/-- Recognizer for the ranges-to-strings transition chunk. -/
def isTransition : USetChunk → Bool
  | USetChunk.transition => true
  | _ => false

/-- The text of each `usrc_writeUnicodeSet` write
(`writesrc.cpp:401-421`). -/
def renderUSetChunk : USetChunk → String
  | USetChunk.header => "# Inclusive ranges of the code points in the set.\n"
  | USetChunk.rangesOpen => "ranges = [\n"
  | USetChunk.transition => "]\nstrings = [\n"
  | USetChunk.rangeEntry a b => "  [0x" ++ natHex a ++ ", 0x" ++ natHex b ++ "],\n"
  | USetChunk.strEntry s => "  " ++ s ++ ",\n"
  | USetChunk.close => "]\n"

/-- The iteration loop of `usrc_writeUnicodeSet`
(`writesrc.cpp:403-420`), with the `seenFirstString` flag: the first
string member closes the ranges list and opens the strings list;
string members go through `usrc_writeStringAsASCII`. -/
def usetLoop : Bool → List SetItem → List USetChunk
  | _, [] => []
  | seen, SetItem.range a b :: rest => USetChunk.rangeEntry a b :: usetLoop seen rest
  | seen, SetItem.str us :: rest =>
    (if seen then [] else [USetChunk.transition])
      ++ USetChunk.strEntry (usrc_writeStringAsASCII us) :: usetLoop true rest

/-- `usrc_writeUnicodeSet` (`writesrc.cpp:390-422`) as its ordered
sequence of sink writes. -/
def usrc_writeUnicodeSet (items : List SetItem) : List USetChunk :=
  USetChunk.header :: USetChunk.rangesOpen :: (usetLoop false items ++ [USetChunk.close])

/-- The full text written by `usrc_writeUnicodeSet`. -/
def usetOutput (items : List SetItem) : String :=
  joinStrs ((usrc_writeUnicodeSet items).map renderUSetChunk)

/-- One emitted entry of `usrc_writeUCPMap`: code points `a` through
`b` have value `v`, with a name exactly when a resolver was given. -/
structure MapEntry where
  a : Nat
  b : Nat
  v : Nat
  name : Option String

/-- The range loop of `usrc_writeUCPMap` (`writesrc.cpp:439-447`).
`g start` models `ucpmap_getRange`: `some (end, value)` for the
maximal constant-value range at `start`, `none` for a negative end
(exhaustion).  Fuel bounds the iteration; `0x110000` steps always
suffice for a map honoring the iterator contract. -/
def ucpMapLoop (g : Nat → Option (Nat × Nat)) (res : Option (Nat → String)) :
    Nat → Nat → List MapEntry
  | 0, _ => []
  | fuel + 1, start =>
    match g start with
    | none => []
    | some (e, v) =>
      ⟨start, e, v, Option.map (fun r => r v) res⟩ :: ucpMapLoop g res fuel (e + 1)

/-- The entries emitted by `usrc_writeUCPMap`, starting at code
point 0. -/
def ucpMapEntries (g : Nat → Option (Nat × Nat)) (res : Option (Nat → String)) :
    List MapEntry :=
  ucpMapLoop g res 0x110000 0

/-- The text of one emitted map entry (`writesrc.cpp:442-444`). -/
def renderMapEntry (en : MapEntry) : String :=
  match en.name with
  | some nm =>
    "  \x7ba=0x" ++ natHex en.a ++ ", b=0x" ++ natHex en.b ++ ", v=" ++ natDec en.v
      ++ ", name=" ++ String.mk [Char.ofNat 34] ++ nm ++ String.mk [Char.ofNat 34] ++ "\x7d,\n"
  | none =>
    "  \x7ba=0x" ++ natHex en.a ++ ", b=0x" ++ natHex en.b ++ ", v=" ++ natDec en.v ++ "\x7d,\n"

/-- The full text written by `usrc_writeUCPMap`
(`writesrc.cpp:424-449`). -/
def usrc_writeUCPMap (g : Nat → Option (Nat × Nat)) (res : Option (Nat → String)) : String :=
  "# Code points `a` through `b` have value `v`, corresponding to `name`.\n"
    ++ "ranges = [\n" ++ joinStrs ((ucpMapEntries g res).map renderMapEntry) ++ "]\n"

/-- `Tiles lo hi rs`: the entries `rs`, in order, cover `[lo, hi]`
exactly, each starting where the previous one ended plus one. -/
def Tiles : Nat → Nat → List MapEntry → Prop
  | lo, hi, [] => lo = hi + 1
  | lo, hi, en :: rest => en.a = lo ∧ lo ≤ en.b ∧ en.b ≤ hi ∧ Tiles (en.b + 1) hi rest

/-- A concrete two-range code-point value map (for witnesses):
`[0, 0x7F] → 0` and `[0x80, 0x10FFFF] → 1`. -/
def exMapG : Nat → Option (Nat × Nat) := fun s =>
  if 0x10FFFF < s then none
  else if s ≤ 0x7F then some (0x7F, 0)
  else some (0x10FFFF, 1)

/-- A concrete generalized trie with an unrecognized value-width tag
(for witnesses). -/
def exTrie : UCPTrie :=
  ⟨[1, 2], [3], 2, 1, 0x110000, 0x1100, 0, 5, 0, 0, 0⟩

/-- One byte of `usrc_writeArrayOfMostlyInvChars`
(`writesrc.cpp:481`): `fprintf(f, c<0x20 ? "%u" : "'%c'", c)` — a bare
decimal for control bytes, a quoted character literal otherwise. -/
def renderInvChar (c : Nat) : String :=
  if c < 0x20 then natDec c
  else String.mk [Char.ofNat 39, Char.ofNat c, Char.ofNat 39]

/-- The line-break condition of `usrc_writeArrayOfMostlyInvChars`
(`writesrc.cpp:467-474`), on the code's own state: the column counter
and the `prev2`/`prev` registers (initialized to `-1`). -/
def breakHere (col : Nat) (prev2 prev : Int) (c : Nat) : Bool :=
  decide (32 ≤ col
    ∨ (24 ≤ col ∧ 0x20 ≤ prev2 ∧ prev = 0)
    ∨ (16 ≤ col ∧ (prev = 0 ∨ 0x20 ≤ prev) ∧ 0 < c ∧ c < 0x20))

/-- The element loop of `usrc_writeArrayOfMostlyInvChars`
(`writesrc.cpp:463-484`). -/
def invGo : List Nat → Nat → Nat → Int → Int → String
  | [], _, _, _, _ => ""
  | c :: rest, i, col, prev2, prev =>
    (if i > 0 then (if breakHere col prev2 prev c then ",\n" else ",") else "")
      ++ renderInvChar c
      ++ invGo rest (i + 1)
          (if i > 0 ∧ breakHere col prev2 prev c then 1 else col + 1) prev (c : Int)

/-- `usrc_writeArrayOfMostlyInvChars` (`writesrc.cpp:451-488`). -/
def usrc_writeArrayOfMostlyInvChars (pfx : Option (Nat → String)) (bytes : List Nat)
    (sfx : Option String) : String :=
  (match pfx with | some g => g bytes.length | none => "")
    ++ invGo bytes 0 0 (-1) (-1)
    ++ (match sfx with | some s => s | none => "")

/-- The Byte/Char writer's printability convention: bytes `≥ 0x20` are
rendered as quoted character literals. -/
def isPrintableByte (b : Nat) : Bool := decide (0x20 ≤ b)

/-- Whether an optional previous byte exists and is printable. -/
def optPrintable : Option Nat → Bool
  | some b => isPrintableByte b
  | none => false

/-- Whether an optional previous byte exists and is zero. -/
def optIsZero : Option Nat → Bool
  | some b => decide (b = 0)
  | none => false

/-- Modelled from the spec's three-rule description (§4.2), checked in
the stated priority order over the actual previous bytes of the input:
break at ≥32 elements; or at ≥24 right after a zero byte following a
printable byte; or at ≥16 just before a non-zero control byte (1..31)
following a zero or printable byte. -/
def specBreakRule (lineLen : Nat) (pp p : Option Nat) (c : Nat) : Bool :=
  if 32 ≤ lineLen then true
  else if 24 ≤ lineLen ∧ optPrintable pp = true ∧ optIsZero p = true then true
  else if 16 ≤ lineLen ∧ (optIsZero p = true ∨ optPrintable p = true)
      ∧ 1 ≤ c ∧ c ≤ 31 then true
  else false

/-- Modelled from the spec: the Byte/Char writer's element sequence,
with the separator before each element after the first chosen by
`specBreakRule` applied to the current line length and the two
actual previous bytes. -/
def specInvGo : List Nat → Option Nat → Option Nat → Nat → String
  | [], _, _, _ => ""
  | c :: rest, pp, p, lineLen =>
    match p with
    | none => renderInvChar c ++ specInvGo rest p (some c) (lineLen + 1)
    | some _ =>
      (if specBreakRule lineLen pp p c then ",\n" else ",")
        ++ renderInvChar c
        ++ specInvGo rest p (some c)
            (if specBreakRule lineLen pp p c then 1 else lineLen + 1)

/-- Modelled from the spec: the whole element portion per §4.2. -/
def specInvChars (bytes : List Nat) : String := specInvGo bytes none none 0

/-- The `-1` initialization of the `prev2`/`prev` registers seen as
an optional previous byte. -/
def optToInt : Option Nat → Int
  | some b => (b : Int)
  | none => -1

theorem countChar_append (c : Char) (a b : String) :
    countChar c (a ++ b) = countChar c a + countChar c b := by
  simp [countChar, String.data_append, List.count_append]

theorem countChar_mk (c : Char) (l : List Char) : countChar c (String.mk l) = l.count c := rfl

theorem natDigits_mem (b : Nat) :
    ∀ n c, c ∈ natDigits b n → ∃ d, d < b ∧ c = digitChar d := by
  intro n
  induction n using Nat.strong_induction_on with
  | _ n ih =>
    intro c hc
    rw [natDigits] at hc
    by_cases hb : b ≤ 1
    · simp [hb] at hc
    · by_cases hn : n < b
      · simp [hb, hn] at hc
        exact ⟨n, hn, hc⟩
      · simp [hb, hn] at hc
        rcases hc with hc | hc
        · exact ih (n / b) (Nat.div_lt_self (by omega) (by omega)) c hc
        · exact ⟨n % b, Nat.mod_lt n (by omega), hc⟩

theorem count_natDigits_zero (b n : Nat) (c : Char) (h : ∀ d, d < b → digitChar d ≠ c) :
    (natDigits b n).count c = 0 := by
  rw [List.count_eq_zero]
  intro hc
  obtain ⟨d, hd, he⟩ := natDigits_mem b n c hc
  exact h d hd he.symm

/-- Hex digits are never a comma, a newline, a double quote, or a
single quote. -/
theorem digitChar_safe :
    ∀ d, d < 16 → digitChar d ≠ ',' ∧ digitChar d ≠ '\n' ∧
      digitChar d ≠ Char.ofNat 34 ∧ digitChar d ≠ Char.ofNat 39 := by decide

theorem renderValue_count_zero (z : Int) (c : Char)
    (hdig : ∀ d, d < 16 → digitChar d ≠ c)
    (hminus : Char.ofNat 45 ≠ c) (h0 : '0' ≠ c) (hx : 'x' ≠ c) :
    countChar c (renderValue z) = 0 := by
  have h10 : ∀ d, d < 10 → digitChar d ≠ c := fun d hd => hdig d (by omega)
  rw [renderValue]
  split
  · rw [intDec]
    split
    · simp [countChar_mk, List.count_cons, count_natDigits_zero 10 _ c h10,
        (by simpa using hminus : ¬ (Char.ofNat 45 = c))]
    · simp [natDec, countChar_mk, count_natDigits_zero 10 _ c h10]
  · rw [countChar_append]
    have : countChar c "0x" = 0 := by
      show List.count c ['0', 'x'] = 0
      simp [List.count_cons, (by simpa using h0 : ¬ ('0' = c)), (by simpa using hx : ¬ ('x' = c))]
    simp [this, natHex, countChar_mk, count_natDigits_zero 16 _ c hdig]

theorem renderValue_comma (z : Int) : countChar ',' (renderValue z) = 0 :=
  renderValue_count_zero z ','
    (fun d hd => (digitChar_safe d hd).1) (by decide) (by decide) (by decide)

theorem renderValue_nl (z : Int) : countChar '\n' (renderValue z) = 0 :=
  renderValue_count_zero z '\n'
    (fun d hd => (digitChar_safe d hd).2.1) (by decide) (by decide) (by decide)

theorem arrGo_count_nl (w : Nat) (indent : String) (hInd : countChar '\n' indent = 0) :
    ∀ (rest : List Nat) (i col : Nat), 1 ≤ col → col ≤ 16 → 1 ≤ i →
      countChar '\n' (arrGo w indent rest i col) = (rest.length + col - 1) / 16 := by
  intro rest
  induction rest with
  | nil =>
    intro i col h1 h16 hi
    show countChar '\n' "" = ([].length + col - 1) / 16
    simp only [List.length_nil]
    rw [Nat.div_eq_of_lt (by omega)]
    rfl
  | cons v rest ih =>
    intro i col h1 h16 hi
    rw [arrGo]
    by_cases hc : col < 16
    · have : (if i > 0 then (if col < 16 then "," else ",\n" ++ indent) else "") = "," := by
        simp [hc, (by omega : i > 0)]
      rw [this, countChar_append, countChar_append]
      have hsep : countChar '\n' "," = 0 := rfl
      have hcol : (if i > 0 ∧ ¬ col < 16 then 1 else col + 1) = col + 1 := by simp [hc]
      rw [hsep, hcol, renderValue_nl, ih (i + 1) (col + 1) (by omega) (by omega) (by omega)]
      have : rest.length + (col + 1) - 1 = (v :: rest).length + col - 1 := by
        simp only [List.length_cons]; omega
      rw [this]
      omega
    · have hceq : col = 16 := by omega
      have : (if i > 0 then (if col < 16 then "," else ",\n" ++ indent) else "") =
          ",\n" ++ indent := by
        simp [hc, (by omega : i > 0)]
      rw [this, countChar_append, countChar_append, countChar_append]
      have hsep : countChar '\n' ",\n" = 1 := rfl
      have hcol : (if i > 0 ∧ ¬ col < 16 then 1 else col + 1) = 1 := by
        simp [hc, (by omega : i > 0)]
      rw [hsep, hcol, hInd, renderValue_nl, ih (i + 1) 1 (by omega) (by omega) (by omega)]
      have h2 : (v :: rest).length + col - 1 = rest.length + 16 := by
        simp only [List.length_cons]; omega
      rw [h2, Nat.add_div_right _ (by omega)]
      omega

theorem arrGo_count_comma (w : Nat) (indent : String) (hInd : countChar ',' indent = 0) :
    ∀ (rest : List Nat) (i col : Nat), 1 ≤ i →
      countChar ',' (arrGo w indent rest i col) = rest.length := by
  intro rest
  induction rest with
  | nil => intro i col hi; rfl
  | cons v rest ih =>
    intro i col hi
    rw [arrGo]
    have hone : countChar ','
        (if i > 0 then (if col < 16 then "," else ",\n" ++ indent) else "") = 1 := by
      rw [if_pos (by omega : i > 0)]
      by_cases hc : col < 16
      · rw [if_pos hc]; rfl
      · rw [if_neg hc, countChar_append, hInd]; rfl
    rw [countChar_append, countChar_append, hone, renderValue_comma,
      ih (i + 1) _ (by omega)]
    simp only [List.length_cons]
    omega

theorem writeArrayBody_cons (w : Nat) (indent : String) (v : Nat) (rest : List Nat) :
    writeArrayBody w (v :: rest) indent =
      renderValue (readVal w v) ++ arrGo w indent rest 1 1 := by
  rw [writeArrayBody, arrGo]
  rw [if_neg (by omega : ¬ (0 > 0))]
  rw [String.empty_append]
  have : (if 0 > 0 ∧ ¬ 0 < 16 then 1 else 0 + 1) = 1 := by simp
  rw [this]

/-- C1: for every Numeric Array of `N > 0` elements with a recognized
width, the Numeric Array Writer's element-list output contains exactly
`ceil(N/16) - 1 = (N+15)/16 - 1` line breaks and exactly `N - 1` comma
separators (for any indent free of newlines and commas, as the actual
indents `""` and `"  "` are), and the very first element is never
preceded by any separator; the column counter resets to zero after
every wrap, which is what makes the wrap count come out to one break
per block of 16 elements. -/
theorem numeric_array_wrap_invariant
    (w : Nat) (hw : w = 8 ∨ w = 16 ∨ w = 32 ∨ w = 64)
    (v0 : Nat) (rest : List Nat) (indent : String)
    (hIndNl : countChar '\n' indent = 0) (hIndComma : countChar ',' indent = 0)
    (pfx : Option (Nat → String)) (sfx : Option String) :
    usrc_writeArray pfx (v0 :: rest) w indent sfx =
      ((match pfx with | some g => g (v0 :: rest).length | none => "")
        ++ writeArrayBody w (v0 :: rest) indent
        ++ (match sfx with | some s => s | none => ""), [])
    ∧ countChar '\n' (writeArrayBody w (v0 :: rest) indent) =
        ((v0 :: rest).length + 15) / 16 - 1
    ∧ countChar ',' (writeArrayBody w (v0 :: rest) indent) = (v0 :: rest).length - 1
    ∧ ∃ t, writeArrayBody w (v0 :: rest) indent = renderValue (readVal w v0) ++ t := by
  refine ⟨by simp only [usrc_writeArray, if_pos hw], ?_, ?_, ?_⟩
  · rw [writeArrayBody_cons, countChar_append, renderValue_nl,
      arrGo_count_nl w indent hIndNl rest 1 1 (by omega) (by omega) (by omega)]
    simp only [List.length_cons]
    have h1 : rest.length + 1 - 1 = rest.length := by omega
    have h2 : rest.length + 1 + 15 = rest.length + 16 := by omega
    rw [h1, h2, Nat.add_div_right _ (by omega : 0 < 16)]
    omega
  · rw [writeArrayBody_cons, countChar_append, renderValue_comma,
      arrGo_count_comma w indent hIndComma rest 1 1 (by omega)]
    simp only [List.length_cons]
    omega
  · exact ⟨arrGo w indent rest 1 1, writeArrayBody_cons w indent v0 rest⟩

theorem numeric_array_wrap_invariant_witness :
    countChar '\n' (writeArrayBody 16 (0 :: List.range' 1 16) "  ") = 1 ∧
    countChar ',' (writeArrayBody 16 (0 :: List.range' 1 16) "  ") = 16 := by
  have h := numeric_array_wrap_invariant 16 (by norm_num) 0 (List.range' 1 16) "  "
    (by decide) (by decide) none none
  refine ⟨?_, ?_⟩
  · rw [h.2.1]; decide
  · rw [h.2.2.1]; decide

/-- C2: every element value `v ≤ 9` is rendered as the plain decimal
digit `v`, and every `v > 9` as a hexadecimal literal with a `0x`
prefix, for all four widths 8/16/32/64 (values are read unsigned; for
width 64 the exported magnitudes fit in a non-negative `int64_t`, so
`v < 2^63` is assumed).  The last conjunct ties the rendering to the
writer: a one-element array body is exactly that rendering. -/
theorem numeric_array_base_selection
    (w v : Nat) (_hw : w = 8 ∨ w = 16 ∨ w = 32 ∨ w = 64) (hv : v < 2 ^ 63) :
    readVal w v = (v : Int)
    ∧ (v ≤ 9 → renderValue (readVal w v) = String.mk [digitChar v])
    ∧ (9 < v → renderValue (readVal w v) = "0x" ++ natHex v)
    ∧ (∀ indent, writeArrayBody w [v] indent = renderValue (readVal w v)) := by
  have hread : readVal w v = (v : Int) := by
    rw [readVal, if_neg]
    rintro ⟨h64, hge⟩
    have : (2 : Nat) ^ 63 ≤ v := by exact_mod_cast hge
    omega
  refine ⟨hread, ?_, ?_, ?_⟩
  · intro h9
    rw [hread, renderValue, if_pos (by exact_mod_cast h9), intDec,
      if_neg (by omega), natDec]
    congr 1
    rw [Int.natAbs_ofNat, natDigits, if_neg (by omega), if_pos (by omega)]
  · intro h9
    rw [hread, renderValue, if_neg (by omega)]
    simp
  · intro indent
    rw [writeArrayBody_cons]
    show _ ++ "" = _
    rw [String.append_empty]

theorem numeric_array_base_selection_witness :
    renderValue (readVal 8 3) = String.mk [digitChar 3] ∧
    renderValue (readVal 16 255) = "0x" ++ natHex 255 := by
  refine ⟨(numeric_array_base_selection 8 3 (by norm_num) (by norm_num)).2.1 (by norm_num),
    (numeric_array_base_selection 16 255 (by norm_num) (by norm_num)).2.2.1 (by norm_num)⟩

theorem charOfNat_toNat (n : Nat) (h : n < 0xD800) : (Char.ofNat n).toNat = n := by
  rw [Char.ofNat, dif_pos (Or.inl h : n.isValidChar)]
  simp [Char.ofNatAux, Char.toNat, UInt32.toNat, BitVec.toNat_ofNatLt]

theorem charOfNat_inj (a b : Nat) (ha : a < 0xD800) (hb : b < 0xD800) (hne : a ≠ b) :
    Char.ofNat a ≠ Char.ofNat b := by
  intro h
  have h2 : (Char.ofNat a).toNat = (Char.ofNat b).toNat := by rw [h]
  rw [charOfNat_toNat a ha, charOfNat_toNat b hb] at h2
  exact hne h2

theorem writeArray_bad_width (w : Nat) (hw : ¬ (w = 8 ∨ w = 16 ∨ w = 32 ∨ w = 64))
    (pfx : Option (Nat → String)) (vals : List Nat) (indent : String) (sfx : Option String) :
    usrc_writeArray pfx vals w indent sfx = ("", [widthErr w]) := by
  simp only [usrc_writeArray, if_neg hw]

theorem writeArray_good_no_err (w : Nat) (hw : w = 8 ∨ w = 16 ∨ w = 32 ∨ w = 64)
    (pfx : Option (Nat → String)) (vals : List Nat) (indent : String) (sfx : Option String) :
    (usrc_writeArray pfx vals w indent sfx).2 = [] := by
  simp only [usrc_writeArray, if_pos hw]

/-- C5: an element width outside `{8,16,32,64}` makes `usrc_writeArray`
report to the diagnostic channel and write nothing at all to the sink,
not even the prefix; in particular the width 0 that the generalized
trie serializer derives from an unrecognized value-width tag skips the
data-array write while the index array is still written (best-effort
continuation) and the error is reported. -/
theorem invalid_width_reported_and_skipped :
    (∀ w, ¬ (w = 8 ∨ w = 16 ∨ w = 32 ∨ w = 64) →
      ∀ pfx vals indent sfx,
        usrc_writeArray pfx vals w indent sfx = ("", [widthErr w]))
    ∧ (∀ t ipfx dpfx sfx syn,
        ¬ (t.valueWidth = UCPTRIE_VALUE_BITS_16 ∨ t.valueWidth = UCPTRIE_VALUE_BITS_32
            ∨ t.valueWidth = UCPTRIE_VALUE_BITS_8) →
        ucptrieDataWidth t = 0
        ∧ usrc_writeUCPTrieArrays ipfx dpfx t sfx syn =
            ((usrc_writeArray ipfx t.index 16
                (if syn = UPRV_TARGET_SYNTAX_TOML then "  " else "") sfx).1,
              [widthErr 0])) := by
  refine ⟨fun w hw pfx vals indent sfx => writeArray_bad_width w hw pfx vals indent sfx,
    fun t ipfx dpfx sfx syn h => ?_⟩
  have h16 : ¬ t.valueWidth = UCPTRIE_VALUE_BITS_16 := fun hh => h (Or.inl hh)
  have h32 : ¬ t.valueWidth = UCPTRIE_VALUE_BITS_32 := fun hh => h (Or.inr (Or.inl hh))
  have h8 : ¬ t.valueWidth = UCPTRIE_VALUE_BITS_8 := fun hh => h (Or.inr (Or.inr hh))
  have hw0 : ucptrieDataWidth t = 0 := by
    rw [ucptrieDataWidth, if_neg h16, if_neg h32, if_neg h8]
  refine ⟨hw0, ?_⟩
  rw [usrc_writeUCPTrieArrays, hw0,
    writeArray_bad_width 0 (by norm_num) dpfx t.dataArr _ sfx]
  rw [writeArray_good_no_err 16 (by norm_num) ipfx t.index _ sfx]
  rw [String.append_empty]
  rfl

theorem invalid_width_reported_and_skipped_witness :
    usrc_writeArray none [1, 2, 3] 7 "" none = ("", [widthErr 7])
    ∧ usrc_writeUCPTrieArrays none none exTrie none UPRV_TARGET_SYNTAX_TOML
        = ((usrc_writeArray none exTrie.index 16 "  " none).1, [widthErr 0]) := by
  have h := invalid_width_reported_and_skipped
  refine ⟨h.1 7 (by norm_num) none [1, 2, 3] "" none, ?_⟩
  have h2 := (h.2 exTrie none none none UPRV_TARGET_SYNTAX_TOML (by decide)).2
  simpa using h2

/-- C6: a target-syntax value other than the source-array (`CCODE`)
and structured-config (`TOML`) values hits the
`UPRV_UNREACHABLE_EXIT` default arm in both switches of the
generalized-trie serializer — the array-emission phase and the
struct-emission phase — so the whole call aborts and produces no
tolerant alternative rendering. -/
theorem ucptrie_unsupported_syntax_aborts (s : Nat)
    (h0 : s ≠ UPRV_TARGET_SYNTAX_CCODE) (h1 : s ≠ UPRV_TARGET_SYNTAX_TOML)
    (name : String) (t : UCPTrie) :
    ucptrieArrayPhase name t s = none
    ∧ ucptrieStructPhase name s = none
    ∧ usrc_writeUCPTrie name t s = none := by
  have ha : ucptrieArrayPhase name t s = none := by
    rw [ucptrieArrayPhase, if_neg h0, if_neg h1]
  have hs : ucptrieStructPhase name s = none := by
    rw [ucptrieStructPhase, if_neg h0, if_neg h1]
  exact ⟨ha, hs, by simp only [usrc_writeUCPTrie, ha]⟩

theorem ucptrie_unsupported_syntax_aborts_witness :
    usrc_writeUCPTrie "t" exTrie 2 = none :=
  (ucptrie_unsupported_syntax_aborts 2 (by decide) (by decide) "t" exTrie).2.2

/-- C7: the struct emission consumes the identical sequence of scalar
field values — indexLength, dataLength, highStart,
shifted12HighStart, type, valueWidth, index3NullOffset,
dataNullOffset, nullValue, in that order — under both syntaxes; the
two syntaxes differ only in the framing text around those
conversions (and the C-code-only array-reference lines). -/
theorem ucptrie_struct_same_fields (t : UCPTrie) :
    consumedArgs ccodeStructPattern (ucptrieStructArgs t)
        = consumedArgs tomlStructPattern (ucptrieStructArgs t)
    ∧ consumedArgs ccodeStructPattern (ucptrieStructArgs t)
        = [t.indexLength, t.dataLength, t.highStart, t.shifted12HighStart,
           t.type, t.valueWidth, t.index3NullOffset, t.dataNullOffset, t.nullValue]
    ∧ (∀ pfx idx dat sfx syn,
        usrc_writeUCPTrieStruct pfx t idx dat sfx syn
          = (match pfx with | some s => s | none => "")
            ++ (if syn = UPRV_TARGET_SYNTAX_CCODE then
                  "    " ++ idx ++ ",\n    \x7b " ++ dat ++ " \x7d,\n"
                else "")
            ++ formatRun (if syn = UPRV_TARGET_SYNTAX_CCODE then ccodeStructPattern
                          else tomlStructPattern) (ucptrieStructArgs t)
            ++ (match sfx with | some s => s | none => "")) :=
  ⟨rfl, rfl, fun _ _ _ _ _ => rfl⟩

theorem usetLoop_ranges (rs : List (Nat × Nat)) (seen : Bool) (items : List SetItem) :
    usetLoop seen (rs.map (fun p => SetItem.range p.1 p.2) ++ items)
      = rs.map (fun p => USetChunk.rangeEntry p.1 p.2) ++ usetLoop seen items := by
  induction rs with
  | nil => rfl
  | cons r rs ih => simp [usetLoop, ih]

theorem usetLoop_strs (ss : List (List Nat)) :
    usetLoop true (ss.map SetItem.str)
      = ss.map (fun u => USetChunk.strEntry (usrc_writeStringAsASCII u)) := by
  induction ss with
  | nil => rfl
  | cons s ss ih => simp [usetLoop, ih]

/-- C4: when all plain ranges precede all string members (the iterator
contract), the Range-Set Serializer emits every plain range inside the
ranges list before the strings list is opened, the transition chunk
appears at most once (exactly once when strings exist, never
otherwise, so a set with no strings omits the strings section
entirely), and every string member goes through the String Escaper. -/
theorem uset_ranges_before_strings (rs : List (Nat × Nat)) (ss : List (List Nat)) :
    usrc_writeUnicodeSet (rs.map (fun p => SetItem.range p.1 p.2) ++ ss.map SetItem.str)
      = USetChunk.header :: USetChunk.rangesOpen ::
          (rs.map (fun p => USetChunk.rangeEntry p.1 p.2)
            ++ (if ss.isEmpty then []
                else USetChunk.transition ::
                  ss.map (fun u => USetChunk.strEntry (usrc_writeStringAsASCII u)))
            ++ [USetChunk.close])
    ∧ (usrc_writeUnicodeSet (rs.map (fun p => SetItem.range p.1 p.2)
          ++ ss.map SetItem.str)).countP isTransition
        = (if ss.isEmpty then 0 else 1) := by
  have hloop : usetLoop false (rs.map (fun p => SetItem.range p.1 p.2) ++ ss.map SetItem.str)
      = rs.map (fun p => USetChunk.rangeEntry p.1 p.2)
        ++ (if ss.isEmpty then []
            else USetChunk.transition ::
              ss.map (fun u => USetChunk.strEntry (usrc_writeStringAsASCII u))) := by
    rw [usetLoop_ranges]
    cases ss with
    | nil => rfl
    | cons s0 srest =>
      rw [if_neg (by simp)]
      simp [usetLoop, usetLoop_strs]
  have hchunks : usrc_writeUnicodeSet (rs.map (fun p => SetItem.range p.1 p.2)
      ++ ss.map SetItem.str)
      = USetChunk.header :: USetChunk.rangesOpen ::
          (rs.map (fun p => USetChunk.rangeEntry p.1 p.2)
            ++ (if ss.isEmpty then []
                else USetChunk.transition ::
                  ss.map (fun u => USetChunk.strEntry (usrc_writeStringAsASCII u)))
            ++ [USetChunk.close]) := by
    rw [usrc_writeUnicodeSet, hloop]
  refine ⟨hchunks, ?_⟩
  rw [hchunks]
  have hr : List.countP isTransition (rs.map (fun p => USetChunk.rangeEntry p.1 p.2)) = 0 := by
    rw [List.countP_eq_zero]
    intro a ha
    obtain ⟨p, _, rfl⟩ := List.mem_map.mp ha
    simp [isTransition]
  cases ss with
  | nil =>
    simp [List.countP_cons, List.countP_append, hr, isTransition]
  | cons s0 srest =>
    have hs : List.countP isTransition
        ((s0 :: srest).map (fun u => USetChunk.strEntry (usrc_writeStringAsASCII u))) = 0 := by
      rw [List.countP_eq_zero]
      intro a ha
      obtain ⟨u, _, rfl⟩ := List.mem_map.mp ha
      simp [isTransition]
    rw [if_neg (by simp)]
    simp [List.countP_cons, List.countP_append, hr, hs, isTransition]

theorem breakHere_eq_spec (col : Nat) (pp p : Option Nat) (c : Nat) :
    breakHere col (optToInt pp) (optToInt p) c = specBreakRule col pp p c := by
  cases pp <;> cases p <;>
    simp only [breakHere, specBreakRule, optToInt, optPrintable, optIsZero, isPrintableByte,
      decide_eq_true_eq] <;>
    split_ifs <;>
    simp_all <;>
    omega

theorem invGo_eq_specGo :
    ∀ (rest : List Nat) (i col : Nat) (pp p : Option Nat),
      (0 < i ↔ p ≠ none) →
      invGo rest i col (optToInt pp) (optToInt p) = specInvGo rest pp p col := by
  intro rest
  induction rest with
  | nil => intros; rfl
  | cons c rest ih =>
    intro i col pp p hip
    cases p with
    | none =>
      have hi : i = 0 := by
        rcases Nat.eq_zero_or_pos i with h | h
        · exact h
        · exact absurd rfl (hip.mp h)
      subst hi
      show (if 0 > 0 then _ else "") ++ renderInvChar c ++ _ = _
      rw [if_neg (by omega), String.empty_append]
      show renderInvChar c
          ++ invGo rest 1 (if 0 > 0 ∧ breakHere col (optToInt pp) (optToInt none) c
              then 1 else col + 1) (optToInt none) (c : Int) = _
      rw [if_neg (by simp)]
      show _ = renderInvChar c ++ specInvGo rest none (some c) (col + 1)
      congr 1
      exact ih 1 (col + 1) none (some c) (by simp)
    | some b =>
      have hi : 0 < i := hip.mpr (by simp)
      show (if i > 0 then (if breakHere col (optToInt pp) (optToInt (some b)) c
              then ",\n" else ",") else "")
          ++ renderInvChar c
          ++ invGo rest (i + 1)
              (if i > 0 ∧ breakHere col (optToInt pp) (optToInt (some b)) c
                then 1 else col + 1) (optToInt (some b)) (c : Int) = _
      rw [breakHere_eq_spec col pp (some b) c, if_pos hi]
      show _ = (if specBreakRule col pp (some b) c then ",\n" else ",")
          ++ renderInvChar c
          ++ specInvGo rest (some b) (some c)
              (if specBreakRule col pp (some b) c then 1 else col + 1)
      by_cases hb : specBreakRule col pp (some b) c
      · rw [if_pos hb, if_pos ⟨hi, hb⟩, if_pos hb]
        congr 1
        exact ih (i + 1) 1 (some b) (some c) (by simp)
      · rw [if_neg hb, if_neg (by tauto), if_neg hb]
        congr 1
        exact ih (i + 1) (col + 1) (some b) (some c) (by simp)

/-- C8: the Byte/Char Array Writer's output equals the spec-described
rendering in which, for every element after the first, a line break
replaces the plain comma exactly when one of the three rules fires in
priority order — hard cap at ≥32 elements on the line; ≥24 right
after a zero byte following a printable byte; ≥16 just before a
non-zero control byte (1..31) following a zero or printable byte —
with the rules evaluated on the actual previous bytes of the input
(`specBreakRule`/`specInvChars` transcribe the spec's wording). -/
theorem invchar_linebreak_rules (pfx : Option (Nat → String)) (bytes : List Nat)
    (sfx : Option String) :
    usrc_writeArrayOfMostlyInvChars pfx bytes sfx
      = (match pfx with | some g => g bytes.length | none => "")
        ++ specInvChars bytes
        ++ (match sfx with | some s => s | none => "") := by
  simp only [usrc_writeArrayOfMostlyInvChars, specInvChars]
  congr 1
  congr 1
  exact invGo_eq_specGo bytes 0 0 none none (by simp)

/-- C10: in the Byte/Char Array Writer, a byte is emitted as a bare
decimal integer exactly when its value is below `0x20`; every byte
`≥ 0x20` — including DEL (`0x7F`) and non-ASCII bytes `0x80` and
above — is emitted as a quoted single-character literal containing
the raw byte, which is never equal to the bare-decimal form. -/
theorem invchar_decimal_iff_control (c : Nat) (_hc : c < 256) :
    (c < 0x20 → renderInvChar c = natDec c)
    ∧ (0x20 ≤ c →
        renderInvChar c = String.mk [Char.ofNat 39, Char.ofNat c, Char.ofNat 39]
        ∧ renderInvChar c ≠ natDec c) := by
  refine ⟨fun h => by rw [renderInvChar, if_pos h], fun h => ?_⟩
  have hr : renderInvChar c = String.mk [Char.ofNat 39, Char.ofNat c, Char.ofNat 39] := by
    rw [renderInvChar, if_neg (by omega)]
  refine ⟨hr, ?_⟩
  rw [hr]
  intro heq
  have hdata : [Char.ofNat 39, Char.ofNat c, Char.ofNat 39] = natDigits 10 c := by
    have := congrArg String.data heq
    simpa [natDec] using this
  have hmem : Char.ofNat 39 ∈ natDigits 10 c := by
    rw [← hdata]
    simp
  obtain ⟨d, hd, he⟩ := natDigits_mem 10 c _ hmem
  exact (digitChar_safe d (by omega)).2.2.2 he.symm

theorem invchar_decimal_iff_control_witness :
    renderInvChar 31 = natDec 31
    ∧ renderInvChar 0x7F = String.mk [Char.ofNat 39, Char.ofNat 0x7F, Char.ofNat 39]
    ∧ renderInvChar 0x80 = String.mk [Char.ofNat 39, Char.ofNat 0x80, Char.ofNat 39]
    ∧ renderInvChar 0x41 ≠ natDec 0x41 :=
  ⟨(invchar_decimal_iff_control 31 (by norm_num)).1 (by norm_num),
   ((invchar_decimal_iff_control 0x7F (by norm_num)).2 (by norm_num)).1,
   ((invchar_decimal_iff_control 0x80 (by norm_num)).2 (by norm_num)).1,
   ((invchar_decimal_iff_control 0x41 (by norm_num)).2 (by norm_num)).2⟩

theorem ucpMapLoop_stop (g : Nat → Option (Nat × Nat)) (res : Option (Nat → String))
    (f s : Nat) (h : g s = none) : ucpMapLoop g res f s = [] := by
  cases f with
  | zero => rfl
  | succ n => simp [ucpMapLoop, h]

theorem ucpMapLoop_tiles (g : Nat → Option (Nat × Nat)) (res : Option (Nat → String))
    (hcov : ∀ s, s ≤ 0x10FFFF → ∃ e v, g s = some (e, v) ∧ s ≤ e ∧ e ≤ 0x10FFFF)
    (hend : ∀ s, 0x10FFFF < s → g s = none) :
    ∀ (fuel start : Nat), start ≤ 0x10FFFF → 0x10FFFF - start < fuel →
      Tiles start 0x10FFFF (ucpMapLoop g res fuel start) := by
  intro fuel
  induction fuel with
  | zero => intro start hs hf; omega
  | succ n ih =>
    intro start hs hf
    obtain ⟨e, v, hg, hse, heM⟩ := hcov start hs
    simp only [ucpMapLoop, hg]
    refine ⟨rfl, hse, heM, ?_⟩
    by_cases he : e = 0x10FFFF
    · subst he
      rw [ucpMapLoop_stop g res n _ (hend _ (by omega))]
      show _ = _
      rfl
    · exact ih (e + 1) (by omega) (by omega)

theorem Tiles_countP_zero :
    ∀ (rs : List MapEntry) (lo hi c : Nat), Tiles lo hi rs → c < lo →
      rs.countP (fun en => decide (en.a ≤ c ∧ c ≤ en.b)) = 0 := by
  intro rs
  induction rs with
  | nil => intros; rfl
  | cons en rest ih =>
    intro lo hi c ht hc
    obtain ⟨ha, h1, h2, ht2⟩ := ht
    rw [List.countP_cons, ih (en.b + 1) hi c ht2 (by omega)]
    have hpred : (decide (en.a ≤ c ∧ c ≤ en.b)) = false := by
      rw [decide_eq_false_iff_not]
      rw [ha]
      omega
    simp [hpred]

theorem Tiles_countP_one :
    ∀ (rs : List MapEntry) (lo hi c : Nat), Tiles lo hi rs → lo ≤ c → c ≤ hi →
      rs.countP (fun en => decide (en.a ≤ c ∧ c ≤ en.b)) = 1 := by
  intro rs
  induction rs with
  | nil =>
    intro lo hi c ht hlo hhi
    exact absurd ht (by show ¬ (lo = hi + 1); omega)
  | cons en rest ih =>
    intro lo hi c ht hlo hhi
    obtain ⟨ha, h1, h2, ht2⟩ := ht
    rw [List.countP_cons]
    by_cases hcb : c ≤ en.b
    · have hpred : (decide (en.a ≤ c ∧ c ≤ en.b)) = true := by
        rw [decide_eq_true_eq]
        exact ⟨ha ▸ hlo, hcb⟩
      rw [Tiles_countP_zero rest (en.b + 1) hi c ht2 (by omega)]
      simp [hpred]
    · have hpred : (decide (en.a ≤ c ∧ c ≤ en.b)) = false := by
        rw [decide_eq_false_iff_not]
        omega
      rw [ih (en.b + 1) hi c ht2 (by omega) hhi]
      simp [hpred]

theorem ucpMapLoop_name (g : Nat → Option (Nat × Nat)) (res : Option (Nat → String)) :
    ∀ (fuel start : Nat) (en : MapEntry), en ∈ ucpMapLoop g res fuel start →
      en.name = Option.map (fun r => r en.v) res := by
  intro fuel
  induction fuel with
  | zero => intro start en h; exact absurd h (by simp [ucpMapLoop])
  | succ n ih =>
    intro start en h
    cases hg : g start with
    | none => rw [ucpMapLoop_stop g res _ _ hg] at h; exact absurd h (by simp)
    | some p =>
      obtain ⟨e, v⟩ := p
      simp only [ucpMapLoop, hg, List.mem_cons] at h
      rcases h with h | h
      · subst h; rfl
      · exact ih (e + 1) en h

/-- C3: for a map honoring the iterator contract (a range with
`start ≤ end ≤ 0x10FFFF` at each `start` in the domain, exhaustion
above it), the Range-Value-Map Serializer starts at 0, advances to
`end + 1` after each entry, and stops on exhaustion, so the emitted
entries tile `[0, 0x10FFFF]` in order — every code point is covered
by exactly one entry, with no gaps and no overlaps — and each entry
carries a name exactly when a Value Name Resolver is supplied. -/
theorem ucpmap_gapless_coverage
    (g : Nat → Option (Nat × Nat)) (res : Option (Nat → String))
    (hcov : ∀ s, s ≤ 0x10FFFF → ∃ e v, g s = some (e, v) ∧ s ≤ e ∧ e ≤ 0x10FFFF)
    (hend : ∀ s, 0x10FFFF < s → g s = none) :
    Tiles 0 0x10FFFF (ucpMapEntries g res)
    ∧ (∀ c, c ≤ 0x10FFFF →
        (ucpMapEntries g res).countP (fun en => decide (en.a ≤ c ∧ c ≤ en.b)) = 1)
    ∧ (∀ en, en ∈ ucpMapEntries g res → en.name.isSome = res.isSome) := by
  have ht : Tiles 0 0x10FFFF (ucpMapEntries g res) :=
    ucpMapLoop_tiles g res hcov hend 0x110000 0 (by norm_num) (by norm_num)
  refine ⟨ht, fun c hc => Tiles_countP_one _ 0 0x10FFFF c ht (by omega) hc,
    fun en hen => ?_⟩
  rw [ucpMapLoop_name g res _ _ en hen]
  cases res <;> rfl

theorem ucpmap_gapless_coverage_witness :
    Tiles 0 0x10FFFF (ucpMapEntries exMapG none)
    ∧ (ucpMapEntries exMapG none).countP
        (fun en => decide (en.a ≤ 0x80 ∧ 0x80 ≤ en.b)) = 1 := by
  have hcov : ∀ s, s ≤ 0x10FFFF →
      ∃ e v, exMapG s = some (e, v) ∧ s ≤ e ∧ e ≤ 0x10FFFF := by
    intro s hs
    by_cases h7 : s ≤ 0x7F
    · refine ⟨0x7F, 0, ?_, by omega, by norm_num⟩
      simp only [exMapG]
      rw [if_neg (by omega), if_pos h7]
    · refine ⟨0x10FFFF, 1, ?_, by omega, by norm_num⟩
      simp only [exMapG]
      rw [if_neg (by omega), if_neg h7]
  have hend : ∀ s, 0x10FFFF < s → exMapG s = none := by
    intro s hs
    simp only [exMapG]
    rw [if_pos hs]
  have h := ucpmap_gapless_coverage exMapG none hcov hend
  exact ⟨h.1, h.2.1 0x80 (by norm_num)⟩

theorem strGo_eq_join : ∀ us, strGo us = joinStrs ((decodeUTF16 us).map renderCp) := by
  intro us
  induction us using strGo.induct with
  | case1 => rfl
  | case2 u => simp [strGo, decodeUTF16, joinStrs]
  | case3 u t rest h1 h2 ih =>
    simp [strGo, decodeUTF16, h1, h2, joinStrs, ih]
  | case4 u t rest h1 h2 ih =>
    simp [strGo, decodeUTF16, h1, h2, joinStrs, ih]
  | case5 u t rest h1 ih =>
    simp [strGo, decodeUTF16, h1, joinStrs, ih]

theorem hexPad_mem : ∀ (w n : Nat) (c : Char), c ∈ hexPad w n →
    ∃ d, d < 16 ∧ c = hexDigitU d := by
  intro w
  induction w with
  | zero => intro n c hc; exact absurd hc (by simp [hexPad])
  | succ w ih =>
    intro n c hc
    rw [hexPad] at hc
    rcases List.mem_append.mp hc with hc | hc
    · exact ih _ c hc
    · exact ⟨n % 16, Nat.mod_lt n (by omega), List.mem_singleton.mp hc⟩

theorem hexDigitU_safe : ∀ d, d < 16 →
    hexDigitU d ≠ Char.ofNat 34 ∧ hexDigitU d ≠ Char.ofNat 39 := by decide

theorem renderCp_no_quote (cp : Nat) (h : cp ≠ 34) :
    countChar (Char.ofNat 34) (renderCp cp) = 0 := by
  rw [renderCp, if_neg h]
  by_cases hu : isUnprintableModel cp
  · rw [if_pos hu, escapeUnprintableModel]
    split <;>
    · rw [countChar_mk, List.count_eq_zero]
      intro hmem
      simp only [List.mem_cons] at hmem
      rcases hmem with hm | hm | hm
      · exact absurd hm (by decide)
      · exact absurd hm (by decide)
      · obtain ⟨d, hd, he⟩ := hexPad_mem _ _ _ hm
        exact (hexDigitU_safe d hd).1 he.symm
  · rw [if_neg hu]
    have hcp : 0x20 ≤ cp ∧ cp ≤ 0x7E := by
      by_cases hc : 0x20 ≤ cp ∧ cp ≤ 0x7E
      · exact hc
      · exact absurd (by simp [isUnprintableModel, if_neg hc]) hu
    show List.count (Char.ofNat 34) [Char.ofNat cp] = 0
    rw [List.count_eq_zero]
    intro hm
    exact charOfNat_inj 34 cp (by norm_num) (by omega) (by omega)
      (List.mem_singleton.mp hm)

/-- C9: the String Escaper emits a double-quoted literal whose body is
the concatenation of per-code-point renderings (standard UTF-16
decoding); the rendering of an embedded double quote is the
two-character backslash-quote sequence, and the rendering of every
other code point contains no double-quote character at all — so a
quote is never emitted bare; the all-printable input for `abc` yields
exactly the quoted literal with no escapes. -/
theorem string_escaper_quote_escapes (us : List Nat) :
    usrc_writeStringAsASCII us
      = String.mk [Char.ofNat 34] ++ joinStrs ((decodeUTF16 us).map renderCp)
        ++ String.mk [Char.ofNat 34]
    ∧ renderCp 34 = String.mk [Char.ofNat 92, Char.ofNat 34]
    ∧ (∀ cp, cp ≠ 34 → countChar (Char.ofNat 34) (renderCp cp) = 0)
    ∧ usrc_writeStringAsASCII [0x61, 0x62, 0x63]
        = String.mk [Char.ofNat 34, 'a', 'b', 'c', Char.ofNat 34] := by
  refine ⟨?_, rfl, fun cp hcp => renderCp_no_quote cp hcp, by decide⟩
  rw [usrc_writeStringAsASCII, strGo_eq_join us]

theorem string_escaper_quote_escapes_witness :
    usrc_writeStringAsASCII [0x61, 0x62, 0x63]
      = String.mk [Char.ofNat 34, 'a', 'b', 'c', Char.ofNat 34]
    ∧ countChar (Char.ofNat 34) (renderCp 0x41) = 0 :=
  ⟨(string_escaper_quote_escapes [0x61, 0x62, 0x63]).2.2.2,
   (string_escaper_quote_escapes []).2.2.1 0x41 (by norm_num)⟩

end WriteSrc
